import Mathlib

/-!
Verification of the Quizzr spaced-repetition scheduler
(`backend/app/services/spaced_repetition.py`,
`backend/app/models/spaced_repetition.py`, and the review endpoint in
`backend/app/routers/decks.py`).

Floats are modelled as exact rationals (`ℚ`), Python `int` as `ℤ`,
timestamps as rational "days since epoch", and the database as explicit
state records.  Python's built-in `round` (banker's rounding,
round-half-to-even) is modelled by `pyRound`.
-/

namespace Quizzr

/-- Python's built-in `round` on a rational: nearest integer, ties to even
(round-half-to-even), as used by `round(...)` in the SM-2 code. -/
def pyRound (x : ℚ) : ℤ :=
  if x - ⌊x⌋ < 1/2 then ⌊x⌋
  else if 1/2 < x - ⌊x⌋ then ⌊x⌋ + 1
  else if ⌊x⌋ % 2 = 0 then ⌊x⌋ else ⌊x⌋ + 1

/-- `SpacedRepetitionService.MIN_EASE` (= 1.3). -/
def MIN_EASE : ℚ := 13/10

/-- `SpacedRepetitionService.DEFAULT_EASE` (= 2.5). -/
def DEFAULT_EASE : ℚ := 5/2

/-- `max(0, min(5, int(quality)))` — the quality clamp used by both
`calculate_next_review` and `SpacedRepetitionSchedule.update_schedule`. -/
def clampQuality (quality : ℤ) : ℤ := max 0 (min 5 quality)

/-- The SM-2 ease update
`max(MIN_EASE, ef + (0.1 - (5 - q) * (0.08 + (5 - q) * 0.02)))`,
written with exact rationals (0.1 = 1/10, 0.08 = 2/25, 0.02 = 1/50,
1.3 = 13/10).  The identical formula appears in
`SpacedRepetitionService.calculate_next_review` (service lines 65-68) and
in `SpacedRepetitionSchedule.update_schedule` (model lines 98-101). -/
def efUpdate (q : ℤ) (ef : ℚ) : ℚ :=
  max MIN_EASE (ef + (1/10 - (5 - (q : ℚ)) * (2/25 + (5 - (q : ℚ)) * (1/50))))

/-- `SpacedRepetitionService.calculate_next_review` (pure SM-2 step):
clamp the quality, update the ease factor, then branch on failure /
first success / second success / mature growth, where the mature branch
is `max(1, round(max(1, prev_interval) * ef))`. -/
def calculate_next_review (quality : ℤ) (ease_factor : ℚ)
    (interval : ℤ) (repetitions : ℤ) : ℤ × ℚ :=
  let q := clampQuality quality
  let ef := efUpdate q ease_factor
  if q < 3 then (1, ef)
  else if repetitions ≤ 0 then (1, ef)
  else if repetitions = 1 then (6, ef)
  else (max 1 (pyRound (((max 1 interval : ℤ) : ℚ) * ef)), ef)

/-- Row of `spaced_repetition_schedules`
(`SpacedRepetitionSchedule`, `backend/app/models/spaced_repetition.py`).
Timestamps are rational days since an arbitrary epoch, so
`timedelta(days=k)` is addition of `k`. -/
structure Schedule where
  user_id : ℕ
  card_id : ℕ
  easiness : ℚ
  interval : ℤ
  repetitions : ℤ
  last_quality : Option ℤ
  last_reviewed : Option ℚ
  next_review : ℚ
  updated_at : ℚ
deriving DecidableEq

/-- `SpacedRepetitionSchedule.update_schedule(quality)` at clock reading
`now`: clamp the quality, update `easiness` by the SM-2 formula (shared
with the service as `efUpdate`), reset `repetitions`/`interval` on
failure or grow them on success (interval from the OLD repetition count,
`round(self.interval * self.easiness)` with the already-updated
easiness), then stamp `last_quality`, `last_reviewed = now`,
`next_review = now + interval days`, `updated_at = now`.  The source
reads `datetime.utcnow()` separately for each stamp; the embedding uses
one clock reading `now` for the whole call. -/
def update_schedule (s : Schedule) (quality : ℤ) (now : ℚ) : Schedule :=
  let q := clampQuality quality
  let ef := efUpdate q s.easiness
  let reps := if q < 3 then 0 else s.repetitions + 1
  let ival :=
    if q < 3 then 1
    else if s.repetitions = 0 then 1
    else if s.repetitions = 1 then 6
    else pyRound ((s.interval : ℚ) * ef)
  { s with
    easiness := ef
    repetitions := reps
    interval := ival
    last_quality := some q
    last_reviewed := some now
    next_review := now + (ival : ℚ)
    updated_at := now }

/-- ASCII lowercase fold on one character.  Models Python's `str.lower`
for the ASCII range (the rating strings are ASCII). -/
def lowerChar (c : Char) : Char :=
  match c with
  | 'A' => 'a' | 'B' => 'b' | 'C' => 'c' | 'D' => 'd' | 'E' => 'e' | 'F' => 'f'
  | 'G' => 'g' | 'H' => 'h' | 'I' => 'i' | 'J' => 'j' | 'K' => 'k' | 'L' => 'l'
  | 'M' => 'm' | 'N' => 'n' | 'O' => 'o' | 'P' => 'p' | 'Q' => 'q' | 'R' => 'r'
  | 'S' => 's' | 'T' => 't' | 'U' => 'u' | 'V' => 'v' | 'W' => 'w' | 'X' => 'x'
  | 'Y' => 'y' | 'Z' => 'z'
  | other => other

/-- `rating.lower()` (Python `str.lower`, modelled on the ASCII range). -/
def lowerStr (s : String) : String := ⟨s.data.map lowerChar⟩

/-- The module-level `RATING_MAP` of
`backend/app/services/spaced_repetition.py`:
`{"again": 0, "hard": 2, "good": 4, "easy": 5}`. -/
def RATING_MAP : List (String × ℤ) :=
  [("again", 0), ("hard", 2), ("good", 4), ("easy", 5)]

/-- `RATING_MAP.get(rating.lower(), 4)` — the quality computation at the
top of `SpacedRepetitionService.record_review`. -/
def ratingToQuality (rating : String) : ℤ :=
  (RATING_MAP.lookup (lowerStr rating)).getD 4

/-- The router-local `rating_map = {"again": 0, "hard": 1, "good": 2,
"easy": 3}` and `quality = rating_map.get(review.rating, 2)` in
`review_card` (`backend/app/routers/decks.py`, lines 346-347).  Note:
no lowercasing, default 2, and values 0-3 rather than the SM-2 buckets
0/2/4/5 of `RATING_MAP`. -/
def router_rating_map : List (String × ℤ) :=
  [("again", 0), ("hard", 1), ("good", 2), ("easy", 3)]

def routerQuality (rating : String) : ℤ :=
  (router_rating_map.lookup rating).getD 2

/-- Row of `cards` — only the fields the scheduler service reads or
writes. -/
structure Card where
  id : ℕ
  times_studied : ℕ
  times_correct : ℕ
  times_incorrect : ℕ
  is_mastered : Bool
  is_suspended : Bool
  last_studied : Option ℚ
deriving DecidableEq

/-- The database state seen by `SpacedRepetitionService`: the card store
and the `spaced_repetition_schedules` rows. -/
structure DBState where
  cards : List Card
  schedules : List Schedule
deriving DecidableEq

/-- The row filter `user_id == …  AND card_id == …` used by
`get_or_create_schedule` (and by the flush of the mutated row). -/
def schedKey (user_id card_id : ℕ) (s : Schedule) : Bool :=
  s.user_id == user_id && s.card_id == card_id

/-- `SpacedRepetitionService.get_or_create_schedule`: return the existing
row for `(user_id, card_id)` or create one with `easiness=2.5,
interval=1, repetitions=0, next_review=now` and add it to the store.
The card store is never consulted. -/
def get_or_create_schedule (st : DBState) (user_id card_id : ℕ)
    (now : ℚ) : Schedule × DBState :=
  match st.schedules.find? (schedKey user_id card_id) with
  | some schedule => (schedule, st)
  | none =>
      let schedule : Schedule := ⟨user_id, card_id, 5/2, 1, 0, none, none, now, now⟩
      (schedule, { st with schedules := st.schedules ++ [schedule] })

/-- The card-stats block shared by `record_review` and `process_review`
(service lines 152-161 and 187-197): bump `times_studied`, stamp
`last_studied`, then on success bump `times_correct` and set
`is_mastered` when the schedule interval reached 21 days, and on failure
bump `times_incorrect` and clear `is_mastered`. -/
def updateCardStats (c : Card) (quality : ℤ) (schedInterval : ℤ)
    (now : ℚ) : Card :=
  let c1 := { c with times_studied := c.times_studied + 1, last_studied := some now }
  if 3 ≤ quality then
    { c1 with
      times_correct := c1.times_correct + 1
      is_mastered := if 21 ≤ schedInterval then true else c1.is_mastered }
  else
    { c1 with times_incorrect := c1.times_incorrect + 1, is_mastered := false }

/-- `SpacedRepetitionService.record_review(user_id, card_id, rating)`:
look the rating up in `RATING_MAP` (lowercased, default 4), get or
create the schedule, apply `update_schedule`, and update the card's
stats if — and only if — the card exists (`if card:`); a missing card is
silently skipped, and the operation never fails. -/
def record_review (st : DBState) (user_id card_id : ℕ) (rating : String)
    (now : ℚ) : Schedule × DBState :=
  let quality := ratingToQuality rating
  let gc := get_or_create_schedule st user_id card_id now
  let schedule := update_schedule gc.1 quality now
  (schedule,
   { cards := gc.2.cards.map (fun c =>
       if c.id == card_id then updateCardStats c quality schedule.interval now else c)
     schedules := gc.2.schedules.map (fun s =>
       if schedKey user_id card_id s then schedule else s) })

/-- `SpacedRepetitionService.process_review(user_id, card_id, quality)`,
the numeric-quality variant called by the decks router: identical to
`record_review` except the quality is passed directly. -/
def process_review (st : DBState) (user_id card_id : ℕ) (quality : ℤ)
    (now : ℚ) : Schedule × DBState :=
  let gc := get_or_create_schedule st user_id card_id now
  let schedule := update_schedule gc.1 quality now
  (schedule,
   { cards := gc.2.cards.map (fun c =>
       if c.id == card_id then updateCardStats c quality schedule.interval now else c)
     schedules := gc.2.schedules.map (fun s =>
       if schedKey user_id card_id s then schedule else s) })

/-- The interleaving loop of `get_study_session` (service lines 277-292):
while either pool is non-empty, append up to 5 due cards and then up to
1 new card. -/
def interleaveCards {α : Type} (due_cards new_cards : List α) : List α :=
  if due_cards.isEmpty && new_cards.isEmpty then []
  else due_cards.take 5 ++ new_cards.take 1
    ++ interleaveCards (due_cards.drop 5) (new_cards.drop 1)
termination_by due_cards.length + new_cards.length
decreasing_by
  rename_i h
  simp only [Bool.and_eq_true, List.isEmpty_iff] at h
  have hd : ¬(due_cards.length = 0 ∧ new_cards.length = 0) := by
    intro hz
    exact h ⟨List.length_eq_zero.mp hz.1, List.length_eq_zero.mp hz.2⟩
  simp only [List.length_drop]
  omega

/-- The dict returned by `get_study_session`. -/
structure StudySession (α : Type) where
  cards : List α
  new_count : ℕ
  review_count : ℕ
  total_count : ℕ

/-- The pure merge core of `SpacedRepetitionService.get_study_session`
over the already-fetched due-card and new-card lists: interleave them
(5 due per 1 new) and report `new_count`, `review_count`, `total_count`.
The surrounding database queries supply the two input lists. -/
def get_study_session {α : Type} (due_cards new_cards : List α) :
    StudySession α :=
  { cards := interleaveCards due_cards new_cards
    new_count := new_cards.length
    review_count := due_cards.length
    total_count := (interleaveCards due_cards new_cards).length }

/-- C3 (code bug evidence): embeds `SpacedRepetitionService.get_forecast`.
Its loop body evaluates `select(func.count(...))`, but the name `func` is
imported from sqlalchemy only *inside* `get_deck_stats` and is not bound
at module scope of `services/spaced_repetition.py`, so the very first
loop iteration raises `NameError`; only for `days = 0` does the loop
body never run, returning the empty list. -/
def get_forecast (st : DBState) (user_id : ℕ) (now : ℚ) (days : ℕ) :
    Except String (List (ℚ × ℕ)) :=
  if days = 0 then Except.ok []
  else Except.error "NameError: name func is not defined"

theorem floor_le_pyRound (x : ℚ) : ⌊x⌋ ≤ pyRound x := by
  unfold pyRound
  split_ifs <;> omega

theorem pyRound_le_floor_add_one (x : ℚ) : pyRound x ≤ ⌊x⌋ + 1 := by
  unfold pyRound
  split_ifs <;> omega

theorem le_pyRound_of_le {i : ℤ} {x : ℚ} (h : (i : ℚ) ≤ x) : i ≤ pyRound x :=
  le_trans (Int.le_floor.mpr h) (floor_le_pyRound x)

theorem pyRound_mono {x y : ℚ} (h : x ≤ y) : pyRound x ≤ pyRound y := by
  have hf : ⌊x⌋ ≤ ⌊y⌋ := Int.floor_mono h
  rcases eq_or_lt_of_le hf with heq | hlt
  · have hfrac : x - (⌊x⌋ : ℚ) ≤ y - (⌊y⌋ : ℚ) := by
      rw [← heq]
      linarith
    rw [← heq] at hfrac
    unfold pyRound
    rw [← heq]
    split_ifs <;> first
      | omega
      | linarith
  · calc pyRound x ≤ ⌊x⌋ + 1 := pyRound_le_floor_add_one x
      _ ≤ ⌊y⌋ := by omega
      _ ≤ pyRound y := floor_le_pyRound y

theorem calculate_next_review_snd (quality : ℤ) (ease_factor : ℚ)
    (interval : ℤ) (repetitions : ℤ) :
    (calculate_next_review quality ease_factor interval repetitions).2
      = efUpdate (clampQuality quality) ease_factor := by
  simp only [calculate_next_review]
  split_ifs <;> rfl

theorem min_ease_le_efUpdate (q : ℤ) (ef : ℚ) : MIN_EASE ≤ efUpdate q ef :=
  le_max_left _ _

theorem one_lt_min_ease : (1 : ℚ) < MIN_EASE := by norm_num [MIN_EASE]

theorem calculate_next_review_mature (quality : ℤ) (ease_factor : ℚ)
    (interval : ℤ) (repetitions : ℤ)
    (hq : 3 ≤ clampQuality quality) (hr : 2 ≤ repetitions) :
    (calculate_next_review quality ease_factor interval repetitions).1
      = max 1 (pyRound (((max 1 interval : ℤ) : ℚ)
          * efUpdate (clampQuality quality) ease_factor)) := by
  simp only [calculate_next_review]
  split_ifs with h1 h2 h3 <;> first | rfl | omega

theorem ease_floor_single (quality : ℤ) (ease_factor : ℚ)
    (interval repetitions : ℤ) :
    13/10 ≤ (calculate_next_review quality ease_factor interval repetitions).2 := by
  rw [calculate_next_review_snd]
  exact min_ease_le_efUpdate _ _

theorem ease_floor_iter (interval repetitions : ℤ) (n : ℕ) :
    ∀ ease_factor : ℚ, 13/10 ≤ ease_factor →
      13/10 ≤ ((fun e => (calculate_next_review 0 e interval repetitions).2)^[n]) ease_factor := by
  induction n with
  | zero => intro ef h; simpa using h
  | succ n ih =>
      intro ef h
      rw [Function.iterate_succ_apply]
      exact ih _ (ease_floor_single 0 ef interval repetitions)

/-- C4: for every `(quality, ease_factor, interval, repetitions)` with
`ease_factor ≥ 1.3`, `calculate_next_review` returns
`new_ease_factor ≥ 1.3`, including after any number `n` of iterated
applications of the update with quality 0. -/
theorem ease_factor_floor (quality interval repetitions : ℤ)
    (ease_factor : ℚ) (n : ℕ) (h : 13/10 ≤ ease_factor) :
    13/10 ≤ (calculate_next_review quality ease_factor interval repetitions).2 ∧
    13/10 ≤ ((fun e => (calculate_next_review 0 e interval repetitions).2)^[n]) ease_factor :=
  ⟨ease_floor_single quality ease_factor interval repetitions,
   ease_floor_iter interval repetitions n ease_factor h⟩

theorem ease_factor_floor_witness :
    (13/10 : ℚ) ≤ 5/2 ∧
    (13/10 ≤ (calculate_next_review 0 (5/2) 30 10).2 ∧
     13/10 ≤ ((fun e => (calculate_next_review 0 e 30 10).2)^[3]) (5/2)) :=
  ⟨by norm_num, ease_factor_floor 0 30 10 (5/2) 3 (by norm_num)⟩

/-- C5: with `q` the clamped quality, the new interval is 1 for `q < 3`,
1 for `q ≥ 3` with `repetitions ≤ 0`, 6 for `repetitions = 1`, and
otherwise `round(max(1, interval) * new_ease)` with `new_ease` the
already-updated ease factor (the source's outer `max(1, …)` is a no-op
there); in particular `calculate_next_review(4, 2.5, 6, 2) = (15, 2.5)`. -/
theorem interval_branch_structure (quality interval repetitions : ℤ)
    (ease_factor : ℚ) :
    ((calculate_next_review quality ease_factor interval repetitions).1 =
      if clampQuality quality < 3 then 1
      else if repetitions ≤ 0 then 1
      else if repetitions = 1 then 6
      else pyRound (((max 1 interval : ℤ) : ℚ)
        * (calculate_next_review quality ease_factor interval repetitions).2)) ∧
    calculate_next_review 4 (5/2) 6 2 = (15, 5/2) := by
  constructor
  · rw [calculate_next_review_snd]
    simp only [calculate_next_review]
    split_ifs <;> try rfl
    refine max_eq_right ?_
    apply le_pyRound_of_le
    have h1 : ((1:ℤ) : ℚ) ≤ ((max 1 interval : ℤ) : ℚ) := by
      exact_mod_cast le_max_left 1 interval
    have h2 : (1:ℚ) ≤ efUpdate (clampQuality quality) ease_factor :=
      le_trans (le_of_lt one_lt_min_ease) (min_ease_le_efUpdate _ _)
    push_cast at h1 ⊢
    nlinarith
  · simp only [calculate_next_review, clampQuality, efUpdate, MIN_EASE, pyRound]
    norm_num [max_def, min_def]

/-- C6: for `repetitions ≥ 2` and fixed `quality ≥ 4`, the new interval
is non-decreasing in the incoming interval, and `new_interval ≥ interval`
when `ease_factor ≥ 1.0`. -/
theorem mature_growth_monotone (quality repetitions i1 i2 : ℤ)
    (ease_factor : ℚ) (hreps : 2 ≤ repetitions) (hq : 4 ≤ quality)
    (hi : i1 ≤ i2) (hef : 1 ≤ ease_factor) :
    (calculate_next_review quality ease_factor i1 repetitions).1
      ≤ (calculate_next_review quality ease_factor i2 repetitions).1 ∧
    i1 ≤ (calculate_next_review quality ease_factor i1 repetitions).1 := by
  have hclamp : 3 ≤ clampQuality quality := by
    unfold clampQuality
    omega
  rw [calculate_next_review_mature quality ease_factor i1 repetitions hclamp hreps,
      calculate_next_review_mature quality ease_factor i2 repetitions hclamp hreps]
  have hef13 : (13/10 : ℚ) ≤ efUpdate (clampQuality quality) ease_factor :=
    min_ease_le_efUpdate _ _
  have hef1 : (1 : ℚ) ≤ efUpdate (clampQuality quality) ease_factor := by linarith
  constructor
  · apply max_le_max le_rfl
    apply pyRound_mono
    apply mul_le_mul_of_nonneg_right
    · exact_mod_cast max_le_max le_rfl hi
    · linarith
  · rcases le_or_lt i1 1 with h | h
    · exact le_trans h (le_max_left _ _)
    · have hmax : max 1 i1 = i1 := max_eq_right (le_of_lt h)
      rw [hmax]
      refine le_trans ?_ (le_max_right _ _)
      apply le_pyRound_of_le
      have hpos : (0:ℚ) ≤ (i1 : ℚ) := by
        exact_mod_cast le_of_lt (lt_trans zero_lt_one h)
      calc (i1:ℚ) = (i1:ℚ) * 1 := by ring
        _ ≤ (i1:ℚ) * efUpdate (clampQuality quality) ease_factor :=
            mul_le_mul_of_nonneg_left hef1 hpos

theorem mature_growth_monotone_witness :
    ((2:ℤ) ≤ 2 ∧ (4:ℤ) ≤ 4 ∧ (6:ℤ) ≤ 10 ∧ (1:ℚ) ≤ 5/2) ∧
    ((calculate_next_review 4 (5/2) 6 2).1
        ≤ (calculate_next_review 4 (5/2) 10 2).1 ∧
     6 ≤ (calculate_next_review 4 (5/2) 6 2).1) :=
  ⟨⟨le_refl _, le_refl _, by norm_num, by norm_num⟩,
   mature_growth_monotone 4 2 6 10 (5/2) (le_refl _) (le_refl _)
     (by norm_num) (by norm_num)⟩

theorem update_schedule_user_id (s : Schedule) (quality : ℤ) (now : ℚ) :
    (update_schedule s quality now).user_id = s.user_id := rfl

theorem update_schedule_card_id (s : Schedule) (quality : ℤ) (now : ℚ) :
    (update_schedule s quality now).card_id = s.card_id := rfl

theorem update_schedule_last_quality (s : Schedule) (quality : ℤ) (now : ℚ) :
    (update_schedule s quality now).last_quality = some (clampQuality quality) := rfl

/-- C8: every application of `update_schedule` sets `last_reviewed` to the
clock reading and makes `next_review` equal `last_reviewed` plus
`interval` days — so the invariant
`next_review = last_reviewed + interval` holds whenever `last_reviewed`
is set and is re-established by every review recording, in particular by
the schedule `record_review` returns. -/
theorem next_review_invariant (s : Schedule) (quality : ℤ) (now : ℚ)
    (st : DBState) (user_id card_id : ℕ) (rating : String) :
    ((update_schedule s quality now).last_reviewed = some now ∧
     (update_schedule s quality now).next_review
       = now + ((update_schedule s quality now).interval : ℚ)) ∧
    ((record_review st user_id card_id rating now).1.last_reviewed = some now ∧
     (record_review st user_id card_id rating now).1.next_review
       = now + ((record_review st user_id card_id rating now).1.interval : ℚ)) := by
  refine ⟨⟨rfl, by simp only [update_schedule]⟩, ⟨rfl, ?_⟩⟩
  simp only [record_review, update_schedule]

/-- C9: under the spec's schedule invariants `interval ≥ 1` and
`repetitions ≥ 0`, the `(interval, easiness)` pair stored by the stateful
`update_schedule` equals the `(new_interval, new_ease_factor)` pair of
the pure `calculate_next_review` on the same inputs. -/
theorem update_schedule_refines_calculate (s : Schedule) (quality : ℤ)
    (now : ℚ) (h1 : 1 ≤ s.interval) (h2 : 0 ≤ s.repetitions) :
    ((update_schedule s quality now).interval,
     (update_schedule s quality now).easiness)
      = calculate_next_review quality s.easiness s.interval s.repetitions := by
  simp only [update_schedule, calculate_next_review]
  have hmaxi : max 1 s.interval = s.interval := max_eq_right h1
  split_ifs with a b c d e f g <;> first
    | rfl
    | omega
    | (exfalso; omega)
    | (rw [hmaxi]
       refine Prod.ext ?_ rfl
       simp only
       refine (max_eq_right ?_).symm
       apply le_pyRound_of_le
       have hef : (1:ℚ) ≤ efUpdate (clampQuality quality) s.easiness :=
         le_trans (le_of_lt one_lt_min_ease) (min_ease_le_efUpdate _ _)
       have hi : (1:ℚ) ≤ (s.interval : ℚ) := by exact_mod_cast h1
       push_cast
       nlinarith)

theorem update_schedule_refines_calculate_witness :
    (1:ℤ) ≤ 6 ∧ (0:ℤ) ≤ 2 ∧
    ((update_schedule
        ⟨1, 1, 5/2, 6, 2, none, none, 0, 0⟩ 4 0).interval,
     (update_schedule
        ⟨1, 1, 5/2, 6, 2, none, none, 0, 0⟩ 4 0).easiness)
      = calculate_next_review 4 (5/2) 6 2 :=
  ⟨by norm_num, by norm_num,
   update_schedule_refines_calculate
     ⟨1, 1, 5/2, 6, 2, none, none, 0, 0⟩ 4 0 (by norm_num) (by norm_num)⟩

/-- C1 (code bug evidence): the review endpoint's local table maps
"good" to 2 and "easy" to 3 (passing them to `process_review`, so a
"good" review is stored with quality 2 — a failing SM-2 grade), while
the service's `RATING_MAP` — the table the spec prescribes — maps
"good" to 4 and "easy" to 5. -/
theorem review_card_rating_divergence :
    routerQuality "again" = 0 ∧ routerQuality "hard" = 1 ∧
    routerQuality "good" = 2 ∧ routerQuality "easy" = 3 ∧
    ratingToQuality "good" = 4 ∧ ratingToQuality "easy" = 5 ∧
    (process_review ⟨[], []⟩ 1 1 (routerQuality "good") 0).1.last_quality
      = some 2 := by decide

/-- C2 counterexample: with an empty card store (so card 1 does not
exist), both `get_or_create_schedule` and `record_review` succeed and
persist a schedule row for card 1 instead of failing with NotFound. -/
theorem schedule_ops_no_notfound :
    ((get_or_create_schedule ⟨[], []⟩ 1 1 0).2.schedules.any (schedKey 1 1)) = true ∧
    ((record_review ⟨[], []⟩ 1 1 "good" 0).2.schedules.any (schedKey 1 1)) = true := by
  decide

/-- C2 amended: `get_or_create_schedule` and `record_review` never
consult the card store and cannot fail: for a `(user, card)` pair with no
schedule row — even when the card id is absent from the card store —
both operations (`record_review` skipping the card-stats update) create
and persist a schedule for that card. -/
theorem schedule_ops_ignore_card_store (st : DBState) (user_id card_id : ℕ)
    (rating : String) (now : ℚ)
    (hnone : st.schedules.find? (schedKey user_id card_id) = none)
    (hcard : st.cards.all (fun c => c.id != card_id) = true) :
    ((get_or_create_schedule st user_id card_id now).2.schedules.any
        (schedKey user_id card_id)) = true ∧
    ((record_review st user_id card_id rating now).2.schedules.any
        (schedKey user_id card_id)) = true := by
  have hg : get_or_create_schedule st user_id card_id now
      = (⟨user_id, card_id, 5/2, 1, 0, none, none, now, now⟩,
         { st with schedules :=
             st.schedules ++ [⟨user_id, card_id, 5/2, 1, 0, none, none, now, now⟩] }) := by
    simp [get_or_create_schedule, hnone]
  constructor
  · rw [hg]
    simp [List.any_append, schedKey]
  · simp only [record_review, hg]
    simp [List.any_map, List.any_append, schedKey, update_schedule]

theorem schedule_ops_ignore_card_store_witness :
    ((DBState.mk [] []).schedules.find? (schedKey 1 1) = none ∧
     (DBState.mk [] []).cards.all (fun c => c.id != 1) = true) ∧
    (((get_or_create_schedule ⟨[], []⟩ 1 1 0).2.schedules.any (schedKey 1 1)) = true ∧
     ((record_review ⟨[], []⟩ 1 1 "easy" 0).2.schedules.any (schedKey 1 1)) = true) :=
  ⟨⟨by decide, by decide⟩,
   schedule_ops_ignore_card_store ⟨[], []⟩ 1 1 "easy" 0 (by decide) (by decide)⟩

/-- C10: `record_review` compares ratings after lowercasing (so the
match is case-insensitive), and any rating not in the four-bucket table
after lowercasing is silently given quality 4 — i.e. recorded as a
successful "good" review rather than rejected. -/
theorem unknown_rating_defaults_to_good (st : DBState) (user_id card_id : ℕ)
    (rating : String) (now : ℚ)
    (h : lowerStr rating ∉ (["again", "hard", "good", "easy"] : List String)) :
    (∀ r1 r2 : String, lowerStr r1 = lowerStr r2 →
        ratingToQuality r1 = ratingToQuality r2) ∧
    ratingToQuality rating = 4 ∧ 3 ≤ ratingToQuality rating ∧
    (record_review st user_id card_id rating now).1.last_quality = some 4 := by
  simp only [List.mem_cons, List.not_mem_nil, or_false, not_or] at h
  obtain ⟨h1, h2, h3, h4⟩ := h
  have e1 : (lowerStr rating == "again") = false := beq_eq_false_iff_ne.mpr h1
  have e2 : (lowerStr rating == "hard") = false := beq_eq_false_iff_ne.mpr h2
  have e3 : (lowerStr rating == "good") = false := beq_eq_false_iff_ne.mpr h3
  have e4 : (lowerStr rating == "easy") = false := beq_eq_false_iff_ne.mpr h4
  have hq : ratingToQuality rating = 4 := by
    simp [ratingToQuality, RATING_MAP, List.lookup, e1, e2, e3, e4]
  refine ⟨?_, hq, by omega, ?_⟩
  · intro r1 r2 h12
    simp only [ratingToQuality, h12]
  · simp only [record_review]
    rw [update_schedule_last_quality, hq]
    norm_num [clampQuality]

theorem unknown_rating_defaults_to_good_witness :
    lowerStr "Okay" ∉ (["again", "hard", "good", "easy"] : List String) ∧
    (ratingToQuality "Okay" = 4 ∧ 3 ≤ ratingToQuality "Okay" ∧
     (record_review ⟨[], []⟩ 1 1 "Okay" 0).1.last_quality = some 4) :=
  ⟨by decide,
   (unknown_rating_defaults_to_good ⟨[], []⟩ 1 1 "Okay" 0 (by decide)).2⟩

theorem interleave_length {α : Type} (due_cards new_cards : List α) :
    (interleaveCards due_cards new_cards).length
      = due_cards.length + new_cards.length := by
  unfold interleaveCards
  split_ifs with h
  · simp only [Bool.and_eq_true, List.isEmpty_iff] at h
    rw [h.1, h.2]
    rfl
  · simp only [Bool.and_eq_true, List.isEmpty_iff] at h
    have hd : ¬(due_cards.length = 0 ∧ new_cards.length = 0) := by
      intro hz
      exact h ⟨List.length_eq_zero.mp hz.1, List.length_eq_zero.mp hz.2⟩
    rw [List.length_append, List.length_append,
        interleave_length (due_cards.drop 5) (new_cards.drop 1)]
    simp only [List.length_take, List.length_drop]
    omega
termination_by due_cards.length + new_cards.length
decreasing_by
  simp only [List.length_drop]
  omega

theorem interleave_filterMap_left {α β : Type} (due_cards : List α)
    (new_cards : List β) :
    (interleaveCards (due_cards.map Sum.inl)
        (new_cards.map Sum.inr)).filterMap Sum.getLeft? = due_cards := by
  unfold interleaveCards
  split_ifs with h
  · simp only [Bool.and_eq_true, List.isEmpty_iff, List.map_eq_nil_iff] at h
    rw [h.1]
    rfl
  · simp only [Bool.and_eq_true, List.isEmpty_iff, List.map_eq_nil_iff] at h
    have hd : ¬(due_cards.length = 0 ∧ new_cards.length = 0) := by
      intro hz
      exact h ⟨List.length_eq_zero.mp hz.1, List.length_eq_zero.mp hz.2⟩
    rw [← List.map_take, ← List.map_take, ← List.map_drop, ← List.map_drop,
        List.filterMap_append, List.filterMap_append,
        interleave_filterMap_left (due_cards.drop 5) (new_cards.drop 1)]
    simp only [List.filterMap_map]
    have hleft : (due_cards.take 5).filterMap (@Sum.getLeft? α β ∘ @Sum.inl α β)
        = due_cards.take 5 := by
      simp [Function.comp_def]
    have hright : (new_cards.take 1).filterMap (@Sum.getLeft? α β ∘ @Sum.inr α β)
        = ([] : List α) := by
      simp [Function.comp_def]
    rw [hleft, hright, List.append_nil, List.take_append_drop]
termination_by due_cards.length + new_cards.length
decreasing_by
  simp only [List.length_drop]
  omega

theorem interleave_filterMap_right {α β : Type} (due_cards : List α)
    (new_cards : List β) :
    (interleaveCards (due_cards.map Sum.inl)
        (new_cards.map Sum.inr)).filterMap Sum.getRight? = new_cards := by
  unfold interleaveCards
  split_ifs with h
  · simp only [Bool.and_eq_true, List.isEmpty_iff, List.map_eq_nil_iff] at h
    rw [h.2]
    rfl
  · simp only [Bool.and_eq_true, List.isEmpty_iff, List.map_eq_nil_iff] at h
    have hd : ¬(due_cards.length = 0 ∧ new_cards.length = 0) := by
      intro hz
      exact h ⟨List.length_eq_zero.mp hz.1, List.length_eq_zero.mp hz.2⟩
    rw [← List.map_take, ← List.map_take, ← List.map_drop, ← List.map_drop,
        List.filterMap_append, List.filterMap_append,
        interleave_filterMap_right (due_cards.drop 5) (new_cards.drop 1)]
    simp only [List.filterMap_map]
    have hleft : (due_cards.take 5).filterMap (@Sum.getRight? α β ∘ @Sum.inl α β)
        = ([] : List β) := by
      simp [Function.comp_def]
    have hright : (new_cards.take 1).filterMap (@Sum.getRight? α β ∘ @Sum.inr α β)
        = new_cards.take 1 := by
      simp [Function.comp_def]
    rw [hleft, hright, List.nil_append, List.take_append_drop]
termination_by due_cards.length + new_cards.length
decreasing_by
  simp only [List.length_drop]
  omega

/-- C7: tagging due cards with `inl` and new cards with `inr`,
`get_study_session` returns a merged list in which the due cards, in
order and each exactly once, are the `inl` elements and the new cards,
in order and each exactly once, are the `inr` elements; `review_count`
and `new_count` are the input lengths and `total_count` is their sum. -/
theorem study_session_merge {α β : Type} (due_cards : List α)
    (new_cards : List β) :
    ((get_study_session (due_cards.map Sum.inl)
        (new_cards.map Sum.inr)).cards.filterMap Sum.getLeft? = due_cards) ∧
    ((get_study_session (due_cards.map Sum.inl)
        (new_cards.map Sum.inr)).cards.filterMap Sum.getRight? = new_cards) ∧
    (get_study_session (due_cards.map Sum.inl)
        (new_cards.map Sum.inr)).review_count = due_cards.length ∧
    (get_study_session (due_cards.map Sum.inl)
        (new_cards.map Sum.inr)).new_count = new_cards.length ∧
    (get_study_session (due_cards.map Sum.inl)
        (new_cards.map Sum.inr)).total_count
      = (get_study_session (due_cards.map Sum.inl)
          (new_cards.map Sum.inr)).review_count
        + (get_study_session (due_cards.map Sum.inl)
            (new_cards.map Sum.inr)).new_count := by
  refine ⟨interleave_filterMap_left due_cards new_cards,
          interleave_filterMap_right due_cards new_cards,
          by simp [get_study_session],
          by simp [get_study_session], ?_⟩
  simp [get_study_session, interleave_length]

/-- C3: `get_forecast` does not return a per-day count list — every call
with `days ≥ 1` (here the spec's example `days = 7`, owner with no
schedules) fails with a `NameError` because `func` is unbound at module
scope. -/
theorem get_forecast_raises_name_error :
    get_forecast ⟨[], []⟩ 1 0 7
      = Except.error "NameError: name func is not defined" := rfl

end Quizzr
